import Mathlib

/-!
# Verification of the PFR residual kernels

A shallow embedding of the plug-flow-reactor (PFR) residual kernels from
`Compare_Numpy_Cython_Numba.ipynb` and of the parameter class `pfr`, together
with theorems settling the specified properties.

Floating-point numbers are modelled as rationals (`ℚ`): every kernel variant
performs the same arithmetic operations in the same order, so statements about
exact equality of results transfer.  Fallible array indexing (Python
`IndexError` / numpy shape errors) is modelled with `Option`: a read or write
out of bounds yields `none`.
-/

/-- Parameter record: the Python class `pfr` (also the field layout of the
Cython `Pfr_Cython` and the numba `Numba_PFR` jitclass, which reuse the same
fields and constructor body). -/
structure pfr where
  D : ℚ
  vz : ℚ
  k : ℚ
  Cf : ℚ
  z0 : ℚ
  zf : ℚ
  N : ℕ
  h : ℚ
deriving DecidableEq, Repr

/-- `pfr.get_h`: `(self.zf - self.z0) / self.N`. -/
def pfr.get_h (p : pfr) : ℚ :=
  (p.zf - p.z0) / (p.N : ℚ)

/-- `pfr.__init__(N)`: sets `D = vz = k = Cf = 1.0`, `z0 = 0.0`, `zf = 1.0`,
stores `N` and computes `h = (zf - z0) / N`.  The only way the constructor can
fail is the Python `ZeroDivisionError` raised by `(zf - z0) / N` when `N = 0`,
modelled as `none`.  No other validation is performed. -/
def pfr.init (N : ℕ) : Option pfr :=
  if N = 0 then none
  else some { D := 1, vz := 1, k := 1, Cf := 1, z0 := 0, zf := 1, N := N,
              h := ((1 : ℚ) - 0) / (N : ℚ) }

/-- The inlet ghost-node expression appearing verbatim in every kernel variant:
`aux1 = D / (vz * h)`; `C0 = 1.0 / (1.0 + aux1) * (aux1 * Ci[0] + Cf)`. -/
def inlet_ghost (C1 Cf D vz h : ℚ) : ℚ :=
  let aux1 := D / (vz * h)
  1 / (1 + aux1) * (aux1 * C1 + Cf)

/-- Python/numpy element assignment `res[i] = v`: in bounds it updates the
element, out of bounds it raises `IndexError` (modelled as `none`). -/
def writeIdx (l : List ℚ) (i : ℕ) (v : ℚ) : Option (List ℚ) :=
  if i < l.length then some (l.set i v) else none

/-- The interior loop of `model_pfr`:
`for i in np.arange(1, N - 1): ... res[i] = tt1 + tt2 - dCi[i]`,
run over an explicit list of loop indices. -/
def model_pfr_loop (aux2 aux3 k : ℚ) (Ci dCi : List ℚ) :
    List ℕ → List ℚ → Option (List ℚ)
  | [], res => some res
  | i :: is, res => do
    let cip1 ← Ci[i + 1]?
    let ci ← Ci[i]?
    let cim1 ← Ci[i - 1]?
    let dci ← dCi[i]?
    let tt1 := aux2 * (cip1 - 2 * ci + cim1)
    let tt2 := -aux3 * (cip1 - cim1) + k * ci
    let res' ← writeIdx res i (tt1 + tt2 - dci)
    model_pfr_loop aux2 aux3 k Ci dCi is res'

/-- The pure-Python kernel `model_pfr(t, y, yp, par, res)` (the numba variant
`jitted_pfr_model` and the naive Cython variant `model_pfr_cy` compile this
identical body).  `np.arange(1, N - 1)` is the index list `[1, …, N-2]`,
i.e. `List.range' 1 (N - 2)`. -/
def model_pfr (t : ℚ) (y yp : List ℚ) (par : pfr) (res : List ℚ) :
    Option (List ℚ × ℤ) := do
  let N := par.N
  let D := par.D
  let vz := par.vz
  let k := par.k
  let Cf := par.Cf
  let h := par.h
  let dCi := yp
  let Ci := y
  let ci0 ← Ci[0]?
  let C0 := inlet_ghost ci0 Cf D vz h
  let CNp1 ← Ci[N - 1]?
  let aux2 := D / h ^ 2
  let aux3 := vz / (2 * h)
  let ci1 ← Ci[1]?
  let dci0 ← dCi[0]?
  let res ← writeIdx res 0
    (aux2 * (ci1 - 2 * ci0 + C0) - aux3 * (ci1 - C0) + k * ci0 - dci0)
  let res ← model_pfr_loop aux2 aux3 k Ci dCi (List.range' 1 (N - 2)) res
  let ciNm1 ← Ci[N - 1]?
  let ciNm2 ← Ci[N - 2]?
  let dciNm1 ← dCi[N - 1]?
  let res ← writeIdx res (N - 1)
    (aux2 * (CNp1 - 2 * ciNm1 + ciNm2) - aux3 * (CNp1 - ciNm2) + k * ciNm1 - dciNm1)
  return (res, 0)

/-- numpy slice `l[2:]`. -/
def sliceFrom2 (l : List ℚ) : List ℚ := l.drop 2

/-- numpy slice `l[1:-1]`. -/
def sliceMid (l : List ℚ) : List ℚ := (l.drop 1).take (l.length - 2)

/-- numpy slice `l[0:-2]`. -/
def sliceTo2 (l : List ℚ) : List ℚ := l.take (l.length - 2)

/-- numpy elementwise `+` of two same-length arrays. -/
def vadd (a b : List ℚ) : List ℚ := List.zipWith (· + ·) a b

/-- numpy elementwise `-` of two same-length arrays. -/
def vsub (a b : List ℚ) : List ℚ := List.zipWith (· - ·) a b

/-- numpy scalar–array product `c * a`. -/
def vscale (c : ℚ) (a : List ℚ) : List ℚ := a.map (fun x => c * x)

/-- numpy slice assignment `res[1:-1] = arr`: succeeds when `arr` has exactly
the slice's length (otherwise a broadcast error, modelled `none`), replacing
the interior elements. -/
def setMid (res arr : List ℚ) : Option (List ℚ) :=
  if arr.length = res.length - 2 then
    some (res.take 1 ++ arr ++ res.drop (Nat.max (res.length - 1) 1))
  else none

/-- The numpy-broadcasting kernel `model_pfr_np(t, y, yp, par, res)`:
identical per-element formulas, with the interior rows computed by bulk slice
arithmetic `res[1:-1] = tt1 + tt2 - dCi[1:-1]`. -/
def model_pfr_np (t : ℚ) (y yp : List ℚ) (par : pfr) (res : List ℚ) :
    Option (List ℚ × ℤ) := do
  let N := par.N
  let D := par.D
  let vz := par.vz
  let k := par.k
  let Cf := par.Cf
  let h := par.h
  let dCi := yp
  let Ci := y
  let ci0 ← Ci[0]?
  let C0 := inlet_ghost ci0 Cf D vz h
  let CNp1 ← Ci[N - 1]?
  let aux2 := D / h ^ 2
  let aux3 := vz / (2 * h)
  let ci1 ← Ci[1]?
  let dci0 ← dCi[0]?
  let res ← writeIdx res 0
    (aux2 * (ci1 - 2 * ci0 + C0) - aux3 * (ci1 - C0) + k * ci0 - dci0)
  let tt1 := vscale aux2 (vadd (vsub (sliceFrom2 Ci) (vscale 2 (sliceMid Ci))) (sliceTo2 Ci))
  let tt2 := vadd (vscale (-aux3) (vsub (sliceFrom2 Ci) (sliceTo2 Ci))) (vscale k (sliceMid Ci))
  let res ← setMid res (vsub (vadd tt1 tt2) (sliceMid dCi))
  let ciNm1 ← Ci[N - 1]?
  let ciNm2 ← Ci[N - 2]?
  let dciNm1 ← dCi[N - 1]?
  let res ← writeIdx res (N - 1)
    (aux2 * (CNp1 - 2 * ciNm1 + ciNm2) - aux3 * (CNp1 - ciNm2) + k * ciNm1 - dciNm1)
  return (res, 0)

/-- The isolated-buffer kernel `model_pfr_np_no_share(t, y, yp, par)`: the same
body as `model_pfr_np`, except the residual buffer is freshly allocated by the
kernel via `res = np.empty(y.size)`.  `np.empty` returns an uninitialized
buffer; it is modelled as zeros — the theorems below only concern runs in which
every entry is overwritten before the buffer is returned. -/
def model_pfr_np_no_share (t : ℚ) (y yp : List ℚ) (par : pfr) :
    Option (List ℚ × ℤ) := do
  let res := List.replicate y.length (0 : ℚ)
  let N := par.N
  let D := par.D
  let vz := par.vz
  let k := par.k
  let Cf := par.Cf
  let h := par.h
  let dCi := yp
  let Ci := y
  let ci0 ← Ci[0]?
  let C0 := inlet_ghost ci0 Cf D vz h
  let CNp1 ← Ci[N - 1]?
  let aux2 := D / h ^ 2
  let aux3 := vz / (2 * h)
  let ci1 ← Ci[1]?
  let dci0 ← dCi[0]?
  let res ← writeIdx res 0
    (aux2 * (ci1 - 2 * ci0 + C0) - aux3 * (ci1 - C0) + k * ci0 - dci0)
  let tt1 := vscale aux2 (vadd (vsub (sliceFrom2 Ci) (vscale 2 (sliceMid Ci))) (sliceTo2 Ci))
  let tt2 := vadd (vscale (-aux3) (vsub (sliceFrom2 Ci) (sliceTo2 Ci))) (vscale k (sliceMid Ci))
  let res ← setMid res (vsub (vadd tt1 tt2) (sliceMid dCi))
  let ciNm1 ← Ci[N - 1]?
  let ciNm2 ← Ci[N - 2]?
  let dciNm1 ← dCi[N - 1]?
  let res ← writeIdx res (N - 1)
    (aux2 * (CNp1 - 2 * ciNm1 + ciNm2) - aux3 * (CNp1 - ciNm2) + k * ciNm1 - dciNm1)
  return (res, 0)

/-- The specified residual formula for row `i` (0-based), following the spec:
`R[i] = aux2*(C[i+1] - 2*C[i] + C[i-1]) - aux3*(C[i+1] - C[i-1]) + k*C[i] - dC[i]`
with `aux2 = D/h^2`, `aux3 = vz/(2h)`, where the row at `i = 0` replaces
`C[i-1]` by the inlet ghost value `C0` and the row at `i = N - 1` replaces
`C[i+1]` by the outlet ghost value `C_{N+1} = C[N-1]`. -/
def pfrRes (par : pfr) (y yp : List ℚ) (i : ℕ) : ℚ :=
  let aux2 := par.D / par.h ^ 2
  let aux3 := par.vz / (2 * par.h)
  let c := y.getD i 0
  let cm := if i = 0 then inlet_ghost (y.getD 0 0) par.Cf par.D par.vz par.h
            else y.getD (i - 1) 0
  let cp := if i = par.N - 1 then y.getD (par.N - 1) 0 else y.getD (i + 1) 0
  aux2 * (cp - 2 * c + cm) - aux3 * (cp - cm) + par.k * c - yp.getD i 0

/-- The full reference residual vector. -/
def pfrResVec (par : pfr) (y yp : List ℚ) : List ℚ :=
  (List.range par.N).map (pfrRes par y yp)

/-- The value written by one iteration of the interior loop of
the element-wise kernels, with reads expressed through getD. -/
def rowF (aux2 aux3 k : ℚ) (Ci dCi : List ℚ) (i : ℕ) : ℚ :=
  aux2 * (Ci.getD (i + 1) 0 - 2 * Ci.getD i 0 + Ci.getD (i - 1) 0)
    + (-aux3 * (Ci.getD (i + 1) 0 - Ci.getD (i - 1) 0) + k * Ci.getD i 0)
    - dCi.getD i 0

/-- Pure description of a sequence of in-place writes res[i] := f i. -/
def loopWrites (f : ℕ → ℚ) : List ℕ → List ℚ → List ℚ
  | [], res => res
  | i :: is, res => loopWrites f is (res.set i (f i))

/-- The Cython parameter class `Pfr_Cython`: the same fields and constructor
body as `pfr`, with C `double`/`int` fields.  (With `cdivision`, `get_h` at
`N = 0` would produce `inf` instead of raising; every use in the notebook has
`N ≥ 1`, where the value agrees with exact division.) -/
structure Pfr_Cython where
  D : ℚ
  vz : ℚ
  k : ℚ
  Cf : ℚ
  z0 : ℚ
  zf : ℚ
  N : ℕ
  h : ℚ
deriving DecidableEq, Repr

/-- `Pfr_Cython.__init__(N)`. -/
def Pfr_Cython.init (N : ℕ) : Pfr_Cython :=
  { D := 1, vz := 1, k := 1, Cf := 1, z0 := 0, zf := 1, N := N,
    h := ((1 : ℚ) - 0) / (N : ℚ) }

/-- One solver argument list `[t0, y0, yp0, par, rtol, atol]` as built by
`solver_setup_base(N)`. -/
structure Setup where
  t0 : List ℚ
  y0 : List ℚ
  yp0 : Option (List ℚ)
  par : Option pfr
  rtol : ℚ
  atol : ℚ
deriving DecidableEq, Repr

/-- `solver_setup_base(N)`: fresh parameter object `pfr(N)`, `t0 = [5.0]`,
`y0 = np.zeros(par.N)`, `yp0 = None`, `rtol = 1e-6`, `atol = 1e-8`. -/
def solver_setup_base (N : ℕ) : Option Setup := do
  let par ← pfr.init N
  some { t0 := [5], y0 := List.replicate par.N 0, yp0 := none, par := some par,
         rtol := 1e-6, atol := 1e-8 }

/-- `setups_all(N)`: builds one fresh setup per kernel variant — a base setup
for the Python/numpy kernels, a `Pfr_Cython(N)` object plus a setup whose
`par` slot is cleared (`cy_args[3] = None`), and a setup whose `par` slot is
replaced by a freshly constructed `Numba_PFR(N)` (the jitclass of the same
`pfr` class). -/
def setups_all (N : ℕ) : Option (Setup × (Pfr_Cython × Setup) × Setup) := do
  let base_args ← solver_setup_base N
  let pr_Cy := Pfr_Cython.init N
  let cy_args0 ← solver_setup_base N
  let cy_args := { cy_args0 with par := none }
  let numba_pfr ← pfr.init N
  let numba_args0 ← solver_setup_base N
  let numba_args := { numba_args0 with par := some numba_pfr }
  some (base_args, (pr_Cy, cy_args), numba_args)

/-- Concrete parameter values (N = 2) used for closed instances below. -/
def parW : pfr :=
  { D := 1, vz := 2, k := 3, Cf := 4, z0 := 0, zf := 1, N := 2, h := 1/2 }

/-- Concrete parameter values (N = 3) used for closed instances below. -/
def parW3 : pfr :=
  { D := 2, vz := 3, k := 5, Cf := 7, z0 := 0, zf := 1, N := 3, h := 1/3 }

/-- The value `pfr(3)` of the Python constructor, used for closed instances. -/
def parI3 : pfr :=
  { D := 1, vz := 1, k := 1, Cf := 1, z0 := 0, zf := 1, N := 3,
    h := ((1 : ℚ) - 0) / (3 : ℚ) }

/-! ## Characterization lemmas -/

theorem get?_eq_getD {l : List ℚ} {i : ℕ} (h : i < l.length) :
    l[i]? = some (l.getD i 0) := by
  rw [List.getElem?_eq_getElem h, List.getD_eq_getElem?_getD,
    List.getElem?_eq_getElem h, Option.getD_some]

theorem loopWrites_length (f : ℕ → ℚ) (is : List ℕ) :
    ∀ res : List ℚ, (loopWrites f is res).length = res.length := by
  induction is with
  | nil => intro res; rfl
  | cons i is ih =>
    intro res
    rw [loopWrites, ih, List.length_set]

theorem loopWrites_getElem? (f : ℕ → ℚ) (is : List ℕ) :
    ∀ (res : List ℚ) (j : ℕ), (∀ i ∈ is, i < res.length) →
      (loopWrites f is res)[j]? = if j ∈ is then some (f j) else res[j]? := by
  induction is with
  | nil => intro res j _; simp [loopWrites]
  | cons i is ih =>
    intro res j h
    have hi : i < res.length := h i (List.mem_cons_self i is)
    have h' : ∀ m ∈ is, m < (res.set i (f i)).length := by
      intro m hm
      rw [List.length_set]
      exact h m (List.mem_cons_of_mem i hm)
    rw [loopWrites, ih (res.set i (f i)) j h']
    by_cases hj : j ∈ is
    · simp [hj, List.mem_cons]
    · by_cases hij : i = j
      · subst hij
        simp [hj, List.getElem?_set_self (by simpa using hi)]
      · have hnot : j ∉ i :: is := by
          simp only [List.mem_cons]
          push_neg
          exact ⟨fun hh => hij hh.symm, hj⟩
        rw [if_neg hj, List.getElem?_set_ne hij, if_neg hnot]

theorem model_pfr_loop_eq (aux2 aux3 k : ℚ) (Ci dCi : List ℚ) (is : List ℕ) :
    ∀ res : List ℚ,
      (∀ i ∈ is, i + 1 < Ci.length ∧ i < dCi.length ∧ i < res.length) →
      model_pfr_loop aux2 aux3 k Ci dCi is res =
        some (loopWrites (rowF aux2 aux3 k Ci dCi) is res) := by
  induction is with
  | nil => intro res _; rfl
  | cons i is ih =>
    intro res h
    obtain ⟨hc, hd, hr⟩ := h i (List.mem_cons_self i is)
    have e1 : Ci[i + 1]? = some (Ci.getD (i + 1) 0) := get?_eq_getD hc
    have e2 : Ci[i]? = some (Ci.getD i 0) := get?_eq_getD (by omega)
    have e3 : Ci[i - 1]? = some (Ci.getD (i - 1) 0) := get?_eq_getD (by omega)
    have e4 : dCi[i]? = some (dCi.getD i 0) := get?_eq_getD hd
    have ew : writeIdx res i
        (aux2 * (Ci.getD (i + 1) 0 - 2 * Ci.getD i 0 + Ci.getD (i - 1) 0)
          + (-aux3 * (Ci.getD (i + 1) 0 - Ci.getD (i - 1) 0) + k * Ci.getD i 0)
          - dCi.getD i 0) =
        some (res.set i (rowF aux2 aux3 k Ci dCi i)) := by
      unfold writeIdx rowF
      rw [if_pos hr]
    have h' : ∀ m ∈ is, m + 1 < Ci.length ∧ m < dCi.length ∧
        m < (res.set i (rowF aux2 aux3 k Ci dCi i)).length := by
      intro m hm
      rw [List.length_set]
      exact h m (List.mem_cons_of_mem i hm)
    rw [model_pfr_loop, loopWrites]
    rw [e1, e2, e3, e4]
    simp only [Option.bind_eq_bind, Option.some_bind]
    rw [ew]
    simp only [Option.some_bind]
    exact ih _ h'

theorem model_pfr_eq_ref (t : ℚ) (y yp res : List ℚ) (par : pfr)
    (hN : 2 ≤ par.N) (hy : y.length = par.N) (hyp : yp.length = par.N)
    (hres : res.length = par.N) :
    model_pfr t y yp par res = some (pfrResVec par y yp, 0) := by
  have e0 : y[0]? = some (y.getD 0 0) := get?_eq_getD (by omega)
  have e1 : y[1]? = some (y.getD 1 0) := get?_eq_getD (by omega)
  have eN1 : y[par.N - 1]? = some (y.getD (par.N - 1) 0) := get?_eq_getD (by omega)
  have eN2 : y[par.N - 2]? = some (y.getD (par.N - 2) 0) := get?_eq_getD (by omega)
  have f0 : yp[0]? = some (yp.getD 0 0) := get?_eq_getD (by omega)
  have fN1 : yp[par.N - 1]? = some (yp.getD (par.N - 1) 0) := get?_eq_getD (by omega)
  have w0 : ∀ v : ℚ, writeIdx res 0 v = some (res.set 0 v) := by
    intro v
    unfold writeIdx
    rw [if_pos (by omega)]
  have hloop : ∀ (a b c v : ℚ),
      model_pfr_loop a b c y yp (List.range' 1 (par.N - 2)) (res.set 0 v) =
        some (loopWrites (rowF a b c y yp) (List.range' 1 (par.N - 2)) (res.set 0 v)) := by
    intro a b c v
    apply model_pfr_loop_eq
    intro i hi
    rw [List.mem_range'] at hi
    obtain ⟨m, hm, rfl⟩ := hi
    refine ⟨by omega, by omega, ?_⟩
    rw [List.length_set]
    omega
  have wN : ∀ (a b c v vN : ℚ),
      writeIdx (loopWrites (rowF a b c y yp) (List.range' 1 (par.N - 2)) (res.set 0 v))
        (par.N - 1) vN =
      some ((loopWrites (rowF a b c y yp) (List.range' 1 (par.N - 2)) (res.set 0 v)).set
        (par.N - 1) vN) := by
    intro a b c v vN
    unfold writeIdx
    rw [if_pos]
    rw [loopWrites_length, List.length_set]
    omega
  simp only [model_pfr, e0, e1, eN1, eN2, f0, fN1, Option.bind_eq_bind, Option.some_bind]
  rw [w0]
  simp only [Option.some_bind]
  rw [hloop]
  simp only [Option.some_bind]
  rw [wN]
  simp only [Option.some_bind, Option.pure_def]
  congr 2
  apply List.ext_getElem?
  intro j
  have hLlen : ∀ (a b c v : ℚ),
      (loopWrites (rowF a b c y yp) (List.range' 1 (par.N - 2)) (res.set 0 v)).length =
        par.N := by
    intro a b c v
    rw [loopWrites_length, List.length_set]
    exact hres
  by_cases hjN : j < par.N
  · have hr : (List.range par.N)[j]? = some j := List.getElem?_range hjN
    simp only [pfrResVec, List.getElem?_map, hr, Option.map_some']
    rw [List.getElem?_set]
    by_cases hlast : par.N - 1 = j
    · rw [if_pos hlast, if_pos (by rw [hLlen]; omega)]
      have hj : j = par.N - 1 := hlast.symm
      subst hj
      congr 1
      simp only [pfrRes, if_true]
      rw [if_neg (show ¬(par.N - 1 = 0) by omega)]
      have h21 : par.N - 1 - 1 = par.N - 2 := by omega
      rw [h21]
    · rw [if_neg hlast]
      rw [loopWrites_getElem?]
      · by_cases hmem : j ∈ List.range' 1 (par.N - 2)
        · rw [if_pos hmem]
          have hj1 : 1 ≤ j ∧ j < par.N - 1 := by
            rw [List.mem_range'] at hmem
            obtain ⟨m, hm, rfl⟩ := hmem
            omega
          congr 1
          simp only [rowF, pfrRes]
          rw [if_neg (by omega), if_neg (by omega)]
          ring
        · rw [if_neg hmem]
          have hj0 : j = 0 := by
            have hni : ¬(1 ≤ j ∧ j < par.N - 1) := by
              intro hc
              exact hmem (by
                rw [List.mem_range']
                exact ⟨j - 1, by omega, by omega⟩)
            omega
          subst hj0
          rw [List.getElem?_set, if_pos rfl, if_pos (by omega)]
          congr 1
          simp only [pfrRes, if_true]
          rw [if_neg (show ¬(0 = par.N - 1) by omega)]
      · intro i hi
        rw [List.length_set]
        rw [List.mem_range'] at hi
        obtain ⟨m, hm, rfl⟩ := hi
        omega
  · rw [List.getElem?_set, if_neg (by omega)]
    rw [loopWrites_getElem?]
    · rw [if_neg]
      · rw [List.getElem?_set, if_neg (by omega)]
        rw [List.getElem?_eq_none (by omega)]
        rw [pfrResVec, List.getElem?_map,
          List.getElem?_eq_none (by rw [List.length_range]; omega)]
        rfl
      · intro hmem
        rw [List.mem_range'] at hmem
        obtain ⟨m, hm, hj⟩ := hmem
        omega
    · intro i hi
      rw [List.length_set]
      rw [List.mem_range'] at hi
      obtain ⟨m, hm, rfl⟩ := hi
      omega

theorem zip_some {f : ℚ → ℚ → ℚ} {a b : List ℚ} {i : ℕ} {x z : ℚ}
    (ha : a[i]? = some x) (hb : b[i]? = some z) :
    (List.zipWith f a b)[i]? = some (f x z) := by
  rw [List.getElem?_zipWith, ha, hb]

theorem vadd_get? {a b : List ℚ} {i : ℕ} {x z : ℚ}
    (ha : a[i]? = some x) (hb : b[i]? = some z) :
    (vadd a b)[i]? = some (x + z) :=
  zip_some ha hb

theorem vsub_get? {a b : List ℚ} {i : ℕ} {x z : ℚ}
    (ha : a[i]? = some x) (hb : b[i]? = some z) :
    (vsub a b)[i]? = some (x - z) :=
  zip_some ha hb

theorem vscale_get? {c : ℚ} {l : List ℚ} {i : ℕ} {x : ℚ} (h : l[i]? = some x) :
    (vscale c l)[i]? = some (c * x) := by
  show (List.map (fun v => c * v) l)[i]? = some (c * x)
  rw [List.getElem?_map, h]
  rfl

theorem npMid_getElem? (a b c : ℚ) (y yp : List ℚ) (i : ℕ)
    (hy2 : i + 2 < y.length) (hyp2 : i + 2 < yp.length) :
    (vsub (vadd (vscale a (vadd (vsub (sliceFrom2 y) (vscale 2 (sliceMid y))) (sliceTo2 y)))
          (vadd (vscale (-b) (vsub (sliceFrom2 y) (sliceTo2 y))) (vscale c (sliceMid y))))
      (sliceMid yp))[i]? = some (rowF a b c y yp (i + 1)) := by
  have h1 : (sliceFrom2 y)[i]? = some (y.getD (i + 2) 0) := by
    unfold sliceFrom2
    rw [List.getElem?_drop]
    have h : 2 + i = i + 2 := by omega
    rw [h]
    exact get?_eq_getD hy2
  have h2 : (sliceMid y)[i]? = some (y.getD (i + 1) 0) := by
    unfold sliceMid
    rw [List.getElem?_take_of_lt (by omega), List.getElem?_drop]
    have h : 1 + i = i + 1 := by omega
    rw [h]
    exact get?_eq_getD (by omega)
  have h3 : (sliceTo2 y)[i]? = some (y.getD i 0) := by
    unfold sliceTo2
    rw [List.getElem?_take_of_lt (by omega)]
    exact get?_eq_getD (by omega)
  have h4 : (sliceMid yp)[i]? = some (yp.getD (i + 1) 0) := by
    unfold sliceMid
    rw [List.getElem?_take_of_lt (by omega), List.getElem?_drop]
    have h : 1 + i = i + 1 := by omega
    rw [h]
    exact get?_eq_getD (by omega)
  have m1 : (vscale 2 (sliceMid y))[i]? = some (2 * y.getD (i + 1) 0) := vscale_get? h2
  have s1 : (vsub (sliceFrom2 y) (vscale 2 (sliceMid y)))[i]? =
      some (y.getD (i + 2) 0 - 2 * y.getD (i + 1) 0) := vsub_get? h1 m1
  have s2 : (vadd (vsub (sliceFrom2 y) (vscale 2 (sliceMid y))) (sliceTo2 y))[i]? =
      some (y.getD (i + 2) 0 - 2 * y.getD (i + 1) 0 + y.getD i 0) := vadd_get? s1 h3
  have t1 : (vscale a (vadd (vsub (sliceFrom2 y) (vscale 2 (sliceMid y))) (sliceTo2 y)))[i]? =
      some (a * (y.getD (i + 2) 0 - 2 * y.getD (i + 1) 0 + y.getD i 0)) := vscale_get? s2
  have u1 : (vsub (sliceFrom2 y) (sliceTo2 y))[i]? =
      some (y.getD (i + 2) 0 - y.getD i 0) := vsub_get? h1 h3
  have u2 : (vscale (-b) (vsub (sliceFrom2 y) (sliceTo2 y)))[i]? =
      some (-b * (y.getD (i + 2) 0 - y.getD i 0)) := vscale_get? u1
  have u3 : (vscale c (sliceMid y))[i]? = some (c * y.getD (i + 1) 0) := vscale_get? h2
  have u4 : (vadd (vscale (-b) (vsub (sliceFrom2 y) (sliceTo2 y))) (vscale c (sliceMid y)))[i]? =
      some (-b * (y.getD (i + 2) 0 - y.getD i 0) + c * y.getD (i + 1) 0) := vadd_get? u2 u3
  have v1 : (vadd (vscale a (vadd (vsub (sliceFrom2 y) (vscale 2 (sliceMid y))) (sliceTo2 y)))
      (vadd (vscale (-b) (vsub (sliceFrom2 y) (sliceTo2 y))) (vscale c (sliceMid y))))[i]? =
      some (a * (y.getD (i + 2) 0 - 2 * y.getD (i + 1) 0 + y.getD i 0) +
        (-b * (y.getD (i + 2) 0 - y.getD i 0) + c * y.getD (i + 1) 0)) := vadd_get? t1 u4
  have v2 := vsub_get? v1 h4
  rw [v2]
  simp only [rowF]
  have e1 : i + 1 + 1 = i + 2 := by omega
  have e2 : i + 1 - 1 = i := by omega
  rw [e1, e2]

theorem npMid_length (a b c : ℚ) (y yp : List ℚ) (n : ℕ)
    (hy : y.length = n) (hyp : yp.length = n) :
    (vsub (vadd (vscale a (vadd (vsub (sliceFrom2 y) (vscale 2 (sliceMid y))) (sliceTo2 y)))
          (vadd (vscale (-b) (vsub (sliceFrom2 y) (sliceTo2 y))) (vscale c (sliceMid y))))
      (sliceMid yp)).length = n - 2 := by
  simp [vsub, vadd, vscale, sliceFrom2, sliceMid, sliceTo2, List.length_zipWith,
    List.length_map, List.length_drop, List.length_take, hy, hyp]
  omega

theorem model_pfr_np_eq_ref (t : ℚ) (y yp res : List ℚ) (par : pfr)
    (hN : 2 ≤ par.N) (hy : y.length = par.N) (hyp : yp.length = par.N)
    (hres : res.length = par.N) :
    model_pfr_np t y yp par res = some (pfrResVec par y yp, 0) := by
  have e0 : y[0]? = some (y.getD 0 0) := get?_eq_getD (by omega)
  have e1 : y[1]? = some (y.getD 1 0) := get?_eq_getD (by omega)
  have eN1 : y[par.N - 1]? = some (y.getD (par.N - 1) 0) := get?_eq_getD (by omega)
  have eN2 : y[par.N - 2]? = some (y.getD (par.N - 2) 0) := get?_eq_getD (by omega)
  have f0 : yp[0]? = some (yp.getD 0 0) := get?_eq_getD (by omega)
  have fN1 : yp[par.N - 1]? = some (yp.getD (par.N - 1) 0) := get?_eq_getD (by omega)
  have w0 : ∀ v : ℚ, writeIdx res 0 v = some (res.set 0 v) := by
    intro v
    unfold writeIdx
    rw [if_pos (by omega)]
  have htake : ∀ v : ℚ, ((res.set 0 v).take 1).length = 1 := by
    intro v
    rw [List.length_take, List.length_set, hres]
    omega
  have hmid : ∀ (a b c v : ℚ),
      setMid (res.set 0 v)
        (vsub (vadd (vscale a (vadd (vsub (sliceFrom2 y) (vscale 2 (sliceMid y))) (sliceTo2 y)))
              (vadd (vscale (-b) (vsub (sliceFrom2 y) (sliceTo2 y))) (vscale c (sliceMid y))))
          (sliceMid yp)) =
      some ((res.set 0 v).take 1 ++
        (vsub (vadd (vscale a (vadd (vsub (sliceFrom2 y) (vscale 2 (sliceMid y))) (sliceTo2 y)))
              (vadd (vscale (-b) (vsub (sliceFrom2 y) (sliceTo2 y))) (vscale c (sliceMid y))))
          (sliceMid yp)) ++ (res.set 0 v).drop (par.N - 1)) := by
    intro a b c v
    unfold setMid
    have hc : (vsub (vadd (vscale a (vadd (vsub (sliceFrom2 y) (vscale 2 (sliceMid y)))
        (sliceTo2 y))) (vadd (vscale (-b) (vsub (sliceFrom2 y) (sliceTo2 y)))
        (vscale c (sliceMid y)))) (sliceMid yp)).length = (res.set 0 v).length - 2 := by
      rw [npMid_length a b c y yp par.N hy hyp, List.length_set, hres]
    rw [if_pos hc]
    have hmax : Nat.max ((res.set 0 v).length - 1) 1 = par.N - 1 := by
      rw [List.length_set, hres]
      exact Nat.max_eq_left (by omega)
    rw [hmax]
  have hMlen : ∀ (a b c v : ℚ),
      ((res.set 0 v).take 1 ++
        (vsub (vadd (vscale a (vadd (vsub (sliceFrom2 y) (vscale 2 (sliceMid y))) (sliceTo2 y)))
              (vadd (vscale (-b) (vsub (sliceFrom2 y) (sliceTo2 y))) (vscale c (sliceMid y))))
          (sliceMid yp)) ++ (res.set 0 v).drop (par.N - 1)).length = par.N := by
    intro a b c v
    rw [List.length_append, List.length_append, htake, List.length_drop, List.length_set,
      hres, npMid_length a b c y yp par.N hy hyp]
    omega
  have wN : ∀ (a b c v vN : ℚ),
      writeIdx ((res.set 0 v).take 1 ++
        (vsub (vadd (vscale a (vadd (vsub (sliceFrom2 y) (vscale 2 (sliceMid y))) (sliceTo2 y)))
              (vadd (vscale (-b) (vsub (sliceFrom2 y) (sliceTo2 y))) (vscale c (sliceMid y))))
          (sliceMid yp)) ++ (res.set 0 v).drop (par.N - 1)) (par.N - 1) vN =
      some (((res.set 0 v).take 1 ++
        (vsub (vadd (vscale a (vadd (vsub (sliceFrom2 y) (vscale 2 (sliceMid y))) (sliceTo2 y)))
              (vadd (vscale (-b) (vsub (sliceFrom2 y) (sliceTo2 y))) (vscale c (sliceMid y))))
          (sliceMid yp)) ++ (res.set 0 v).drop (par.N - 1)).set (par.N - 1) vN) := by
    intro a b c v vN
    unfold writeIdx
    rw [if_pos]
    rw [hMlen]
    omega
  simp only [model_pfr_np, e0, e1, eN1, eN2, f0, fN1, Option.bind_eq_bind, Option.some_bind]
  rw [w0]
  simp only [Option.some_bind]
  rw [hmid]
  simp only [Option.some_bind]
  rw [wN]
  simp only [Option.some_bind, Option.pure_def]
  congr 2
  apply List.ext_getElem?
  intro j
  rw [List.getElem?_set]
  by_cases hjN : j < par.N
  · have hr : (List.range par.N)[j]? = some j := List.getElem?_range hjN
    simp only [pfrResVec, List.getElem?_map, hr, Option.map_some']
    by_cases hlast : par.N - 1 = j
    · rw [if_pos hlast, if_pos (by rw [hMlen]; omega)]
      have hj : j = par.N - 1 := hlast.symm
      subst hj
      congr 1
      simp only [pfrRes, if_true]
      rw [if_neg (show ¬(par.N - 1 = 0) by omega)]
      have h21 : par.N - 1 - 1 = par.N - 2 := by omega
      rw [h21]
    · rw [if_neg hlast]
      by_cases hj0 : j = 0
      · subst hj0
        rw [List.getElem?_append_left
          (by rw [List.length_append, htake, npMid_length _ _ _ _ _ _ hy hyp]; omega)]
        rw [List.getElem?_append_left (by rw [htake]; omega)]
        rw [List.getElem?_take_of_lt (by omega)]
        rw [List.getElem?_set_self (by omega)]
        congr 1
        simp only [pfrRes, if_true]
        rw [if_neg (show ¬(0 = par.N - 1) by omega)]
      · rw [List.getElem?_append_left
          (by rw [List.length_append, htake, npMid_length _ _ _ _ _ _ hy hyp]; omega)]
        rw [List.getElem?_append_right (by rw [htake]; omega)]
        rw [htake]
        rw [npMid_getElem? _ _ _ y yp (j - 1) (by omega) (by omega)]
        have hj11 : j - 1 + 1 = j := by omega
        rw [hj11]
        congr 1
        simp only [rowF, pfrRes]
        rw [if_neg (show ¬(j = par.N - 1) by omega), if_neg (show ¬(j = 0) by omega)]
        ring
  · rw [if_neg (by omega)]
    rw [List.getElem?_eq_none (by rw [hMlen]; omega)]
    rw [pfrResVec, List.getElem?_map, List.getElem?_eq_none (by rw [List.length_range]; omega)]
    rfl

theorem model_pfr_np_no_share_eq (t : ℚ) (y yp : List ℚ) (par : pfr) :
    model_pfr_np_no_share t y yp par =
      model_pfr_np t y yp par (List.replicate y.length 0) := rfl

theorem pfrResVec_length (par : pfr) (y yp : List ℚ) :
    (pfrResVec par y yp).length = par.N := by
  unfold pfrResVec
  rw [List.length_map, List.length_range]

theorem pfrResVec_getD (par : pfr) (y yp : List ℚ) (i : ℕ) (hi : i < par.N) :
    (pfrResVec par y yp).getD i 0 = pfrRes par y yp i := by
  unfold pfrResVec
  rw [List.getD_eq_getElem?_getD, List.getElem?_map, List.getElem?_range hi]
  rfl

theorem model_pfr_status (t : ℚ) (y yp : List ℚ) (par : pfr) (res R : List ℚ) (s : ℤ)
    (h : model_pfr t y yp par res = some (R, s)) : s = 0 := by
  simp only [model_pfr, Option.bind_eq_bind, Option.bind_eq_some, Option.pure_def,
    Option.some.injEq, Prod.mk.injEq] at h
  obtain ⟨a1, h1, a2, h2, a3, h3, a4, h4, r1, hr1, r2, hr2, b1, g1, b2, g2, b3, g3,
    r3, hr3, hR, hs⟩ := h
  exact hs.symm

theorem model_pfr_np_status (t : ℚ) (y yp : List ℚ) (par : pfr) (res R : List ℚ) (s : ℤ)
    (h : model_pfr_np t y yp par res = some (R, s)) : s = 0 := by
  simp only [model_pfr_np, Option.bind_eq_bind, Option.bind_eq_some, Option.pure_def,
    Option.some.injEq, Prod.mk.injEq] at h
  obtain ⟨a1, h1, a2, h2, a3, h3, a4, h4, r1, hr1, r2, hr2, b1, g1, b2, g2, b3, g3,
    r3, hr3, hR, hs⟩ := h
  exact hs.symm

/-! ## Claims -/

/-- C1: for every `N ≥ 2` and equal-length input vectors `C`, `dC` (with a
residual buffer of matching length), the element-wise-loop kernel `model_pfr`
and the bulk-array kernel `model_pfr_np` return identical residual vectors
(and statuses) for the same `t`, parameters and inputs: the two strategy
variants differ only in execution mechanism, never in the numerical result. -/
theorem claim1_loop_np_same_result (t : ℚ) (y yp : List ℚ) (par : pfr) (res : List ℚ)
    (hN : 2 ≤ par.N) (hy : y.length = par.N) (hyp : yp.length = par.N)
    (hres : res.length = par.N) :
    model_pfr t y yp par res = model_pfr_np t y yp par res :=
  (model_pfr_eq_ref t y yp res par hN hy hyp hres).trans
    (model_pfr_np_eq_ref t y yp res par hN hy hyp hres).symm

/-- Witness for C1 at `N = 2`. -/
theorem claim1_witness :
    model_pfr 0 [1, 2] [3, 4] parW [0, 0] = model_pfr_np 0 [1, 2] [3, 4] parW [0, 0] :=
  claim1_loop_np_same_result 0 [1, 2] [3, 4] parW [0, 0] (by decide) rfl rfl rfl

/-- C2: under `vz > 0`, `h > 0`, `N ≥ 2` and matching lengths, every row of the
kernel output satisfies the specified stencil formula `pfrRes`:
`R[i] = aux2*(C[i+1] - 2*C[i] + C[i-1]) - aux3*(C[i+1] - C[i-1]) + k*C[i] - dC[i]`
with the inlet ghost value substituted at the first row and the outlet ghost
value substituted at the last row. -/
theorem claim2_stencil_rows (t : ℚ) (y yp : List ℚ) (par : pfr) (res : List ℚ)
    (hvz : 0 < par.vz) (hh : 0 < par.h) (hN : 2 ≤ par.N)
    (hy : y.length = par.N) (hyp : yp.length = par.N) (hres : res.length = par.N) :
    ∃ R : List ℚ, model_pfr t y yp par res = some (R, 0) ∧
      ∀ i, i < par.N → R.getD i 0 = pfrRes par y yp i :=
  ⟨pfrResVec par y yp, model_pfr_eq_ref t y yp res par hN hy hyp hres,
    fun i hi => pfrResVec_getD par y yp i hi⟩

/-- Witness for C2 at `N = 3`. -/
theorem claim2_witness :
    ∃ R : List ℚ, model_pfr 0 [1, 2, 4] [0, 1, 0] parW3 [0, 0, 0] = some (R, 0) ∧
      ∀ i, i < parW3.N → R.getD i 0 = pfrRes parW3 [1, 2, 4] [0, 1, 0] i :=
  claim2_stencil_rows 0 [1, 2, 4] [0, 1, 0] parW3 [0, 0, 0]
    (by norm_num [parW3]) (by norm_num [parW3]) (by decide) rfl rfl rfl

/-- C3: with `D = 0` the inlet ghost-node computation yields `C0 = Cf` exactly,
for every `C1`, `Cf` and every `vz > 0`, `h > 0`. -/
theorem claim3_inlet_ghost_pure_advection (C1 Cf vz h : ℚ)
    (hvz : 0 < vz) (hh : 0 < h) :
    inlet_ghost C1 Cf 0 vz h = Cf := by
  simp [inlet_ghost]

/-- Witness for C3. -/
theorem claim3_witness :
    (0 : ℚ) < 1 ∧ (0 : ℚ) < 1/2 ∧ inlet_ghost 42 7 0 1 (1/2) = 7 :=
  ⟨by norm_num, by norm_num,
    claim3_inlet_ghost_pure_advection 42 7 1 (1/2) (by norm_num) (by norm_num)⟩

/-- C4 counterexample: constructing `pfr` with `N = 1` (which is `< 2`)
succeeds and returns an object with `h = (1.0 - 0.0)/1 = 1`; no
`InvalidParameter` error is raised (`pfr.__init__` contains no validation and
the notebook defines no such error), contradicting the claimed validation. -/
theorem claim4_counterexample :
    pfr.init 1 =
      some { D := 1, vz := 1, k := 1, Cf := 1, z0 := 0, zf := 1, N := 1, h := 1 } := by
  norm_num [pfr.init]

/-- C4 amended: the constructor takes only `N` and performs no validation; it
succeeds for every `N ≥ 1` — including `N = 1 < 2` — always yielding
`h = (zf - z0)/N > 0`, and its only failure mode is the `ZeroDivisionError`
inside `get_h` at `N = 0` (the `pfr.init 0 = none` conjunct).  The cases
`zf ≤ z0` and `vz = 0` are unreachable through construction because
`z0 = 0.0`, `zf = 1.0`, `vz = 1.0` are fixed constants, not constructor
inputs. -/
theorem claim4_amended (N : ℕ) (hN : 1 ≤ N) :
    (∃ p : pfr, pfr.init N = some p ∧ p.N = N ∧ p.z0 < p.zf ∧ p.vz ≠ 0 ∧
      p.h = (p.zf - p.z0) / (p.N : ℚ) ∧ 0 < p.h) ∧
    pfr.init 0 = none := by
  constructor
  · refine ⟨{ D := 1, vz := 1, k := 1, Cf := 1, z0 := 0, zf := 1, N := N,
              h := ((1 : ℚ) - 0) / (N : ℚ) }, ?_, rfl, by norm_num, by norm_num, rfl, ?_⟩
    · unfold pfr.init
      rw [if_neg (by omega)]
    · show (0 : ℚ) < ((1 : ℚ) - 0) / (N : ℚ)
      have hQ : (0 : ℚ) < (N : ℚ) := by exact_mod_cast Nat.pos_of_ne_zero (by omega)
      rw [show ((1 : ℚ) - 0) = 1 by norm_num]
      exact div_pos one_pos hQ
  · rfl

/-- Witness for C4 amended at `N = 5`. -/
theorem claim4_witness :
    (∃ p : pfr, pfr.init 5 = some p ∧ p.N = 5 ∧ p.z0 < p.zf ∧ p.vz ≠ 0 ∧
      p.h = (p.zf - p.z0) / (p.N : ℚ) ∧ 0 < p.h) ∧
    pfr.init 0 = none :=
  claim4_amended 5 (by decide)

/-- C5: every `pfr` object produced by the constructor — the only operation of
the class that assigns `N`, `z0` or `zf`, and the point where `h` is
(re)computed via `get_h`; the class defines no mutating operation — satisfies
the invariant `h = get_h = (zf - z0)/N` with `h > 0`. -/
theorem claim5_h_invariant (N : ℕ) (p : pfr) (hp : pfr.init N = some p) :
    p.h = pfr.get_h p ∧ p.h = (p.zf - p.z0) / (p.N : ℚ) ∧ 0 < p.h := by
  unfold pfr.init at hp
  by_cases h0 : N = 0
  · rw [if_pos h0] at hp
    simp at hp
  · rw [if_neg h0] at hp
    have hp' := (Option.some.inj hp).symm
    subst hp'
    refine ⟨rfl, rfl, ?_⟩
    show (0 : ℚ) < ((1 : ℚ) - 0) / (N : ℚ)
    have hQ : (0 : ℚ) < (N : ℚ) := by exact_mod_cast Nat.pos_of_ne_zero h0
    rw [show ((1 : ℚ) - 0) = 1 by norm_num]
    exact div_pos one_pos hQ

/-- Witness for C5 at `N = 3`. -/
theorem claim5_witness :
    parI3.h = pfr.get_h parI3 ∧
    parI3.h = (parI3.zf - parI3.z0) / (parI3.N : ℚ) ∧
    0 < parI3.h :=
  claim5_h_invariant 3 parI3 (by norm_num [pfr.init, parI3])

/-- C6 counterexample: neither kernel ever returns a nonzero status — there is
no input whatsoever (hence in particular no non-finite input) on which
`model_pfr` or `model_pfr_np` returns a status `≠ 0`; the claimed
failure-signalling path does not exist in the code, whose return statement is
the literal `return res, 0`. -/
theorem claim6_counterexample :
    ¬ ∃ (t : ℚ) (y yp : List ℚ) (par : pfr) (res R : List ℚ) (s : ℤ),
      (model_pfr t y yp par res = some (R, s) ∨
        model_pfr_np t y yp par res = some (R, s)) ∧ s ≠ 0 := by
  rintro ⟨t, y, yp, par, res, R, s, hor, hs⟩
  rcases hor with h | h
  · exact hs (model_pfr_status t y yp par res R s h)
  · exact hs (model_pfr_np_status t y yp par res R s h)

/-- C6 amended: the kernels return a status flag that is `0` on every return;
they never signal an evaluation failure through a nonzero status (not even for
degenerate inputs) — the status component is the constant `0`. -/
theorem claim6_amended (t : ℚ) (y yp : List ℚ) (par : pfr) (res R : List ℚ) (s : ℤ)
    (h : model_pfr t y yp par res = some (R, s) ∨
      model_pfr_np t y yp par res = some (R, s)) : s = 0 := by
  rcases h with h | h
  · exact model_pfr_status t y yp par res R s h
  · exact model_pfr_np_status t y yp par res R s h

/-- Witness for C6 amended. -/
theorem claim6_witness :
    (model_pfr 0 [0, 0] [0, 0] parW [0, 0] = some ([12, 0], (0 : ℤ)) ∨
      model_pfr_np 0 [0, 0] [0, 0] parW [0, 0] = some ([12, 0], (0 : ℤ))) ∧
    (0 : ℤ) = 0 :=
  have hcalc : model_pfr 0 [0, 0] [0, 0] parW [0, 0] = some ([12, 0], (0 : ℤ)) := by
    rw [model_pfr_eq_ref 0 [0, 0] [0, 0] [0, 0] parW (by decide) rfl rfl rfl]
    norm_num [pfrResVec, pfrRes, parW, inlet_ghost, List.range_succ]
  ⟨Or.inl hcalc, claim6_amended 0 [0, 0] [0, 0] parW [0, 0] [12, 0] 0 (Or.inl hcalc)⟩

/-- C7: for every `N ≥ 2` and identical inputs, the shared-buffer kernel
`model_pfr_np` (overwriting a caller-supplied buffer of length `N`) and the
isolated kernel `model_pfr_np_no_share` (allocating its own buffer) return
identical residual vectors. -/
theorem claim7_share_noshare (t : ℚ) (y yp : List ℚ) (par : pfr) (res : List ℚ)
    (hN : 2 ≤ par.N) (hy : y.length = par.N) (hyp : yp.length = par.N)
    (hres : res.length = par.N) :
    model_pfr_np_no_share t y yp par = model_pfr_np t y yp par res := by
  rw [model_pfr_np_no_share_eq,
    model_pfr_np_eq_ref t y yp (List.replicate y.length 0) par hN hy hyp
      (by rw [List.length_replicate]; exact hy),
    model_pfr_np_eq_ref t y yp res par hN hy hyp hres]

/-- Witness for C7. -/
theorem claim7_witness :
    model_pfr_np_no_share 0 [1, 2] [3, 4] parW = model_pfr_np 0 [1, 2] [3, 4] parW [0, 0] :=
  claim7_share_noshare 0 [1, 2] [3, 4] parW [0, 0] (by decide) rfl rfl rfl

/-- C8: `setups_all N` gives each kernel variant its own freshly constructed
parameter object and its own state buffers (base setup: a new `pfr(N)`; cython
setup: `par` slot cleared, parameters carried by a separate `Pfr_Cython(N)`
object; numba setup: its own newly constructed parameter object of equal
value), each with its own `y0 = zeros(N)`; and kernel evaluations through two
independently constructed setups for the same `N` give identical residuals for
identical inputs. -/
theorem claim8_setups_isolated (N : ℕ) (hN : 1 ≤ N) :
    ∃ b pc cy nb, setups_all N = some (b, (pc, cy), nb) ∧
      b.par = some { D := 1, vz := 1, k := 1, Cf := 1, z0 := 0, zf := 1, N := N,
                     h := ((1 : ℚ) - 0) / (N : ℚ) } ∧
      cy.par = none ∧
      pc = Pfr_Cython.init N ∧
      nb.par = b.par ∧
      b.y0 = List.replicate N 0 ∧ cy.y0 = List.replicate N 0 ∧
      nb.y0 = List.replicate N 0 ∧
      ∀ (t : ℚ) (yv ypv rv : List ℚ) (s s' : Setup × (Pfr_Cython × Setup) × Setup),
        setups_all N = some s → setups_all N = some s' →
        s.1.par.map (fun p => model_pfr t yv ypv p rv) =
          s'.1.par.map (fun p => model_pfr t yv ypv p rv) := by
  refine ⟨{ t0 := [5], y0 := List.replicate N 0, yp0 := none,
            par := some { D := 1, vz := 1, k := 1, Cf := 1, z0 := 0, zf := 1, N := N,
                          h := ((1 : ℚ) - 0) / (N : ℚ) },
            rtol := 1e-6, atol := 1e-8 },
          Pfr_Cython.init N,
          { t0 := [5], y0 := List.replicate N 0, yp0 := none, par := none,
            rtol := 1e-6, atol := 1e-8 },
          { t0 := [5], y0 := List.replicate N 0, yp0 := none,
            par := some { D := 1, vz := 1, k := 1, Cf := 1, z0 := 0, zf := 1, N := N,
                          h := ((1 : ℚ) - 0) / (N : ℚ) },
            rtol := 1e-6, atol := 1e-8 },
          ?_, rfl, rfl, rfl, rfl, rfl, rfl, rfl, ?_⟩
  · unfold setups_all solver_setup_base pfr.init
    rw [if_neg (by omega)]
    rfl
  · intro t yv ypv rv s s' h1 h2
    rw [h1] at h2
    rw [Option.some.inj h2]

/-- Witness for C8 at `N = 4`. -/
theorem claim8_witness :
    ∃ b pc cy nb, setups_all 4 = some (b, (pc, cy), nb) ∧
      b.par = some { D := 1, vz := 1, k := 1, Cf := 1, z0 := 0, zf := 1, N := 4,
                     h := ((1 : ℚ) - 0) / (4 : ℚ) } ∧
      cy.par = none ∧
      pc = Pfr_Cython.init 4 ∧
      nb.par = b.par ∧
      b.y0 = List.replicate 4 0 ∧ cy.y0 = List.replicate 4 0 ∧
      nb.y0 = List.replicate 4 0 ∧
      ∀ (t : ℚ) (yv ypv rv : List ℚ) (s s' : Setup × (Pfr_Cython × Setup) × Setup),
        setups_all 4 = some s → setups_all 4 = some s' →
        s.1.par.map (fun p => model_pfr t yv ypv p rv) =
          s'.1.par.map (fun p => model_pfr t yv ypv p rv) :=
  claim8_setups_isolated 4 (by decide)

/-- C9: with `D = 1`, `vz = 1`, `k = 0`, `Cf = 1`, `N = 3` (so `h = 1/3`),
uniform state `C = [1,1,1]` and `dC = [0,0,0]`, the kernel residual is
`[0, 0, 0]`: all spatial terms cancel. -/
theorem claim9_steady_state :
    model_pfr 5 [1, 1, 1] [0, 0, 0]
      { D := 1, vz := 1, k := 0, Cf := 1, z0 := 0, zf := 1, N := 3, h := 1/3 }
      [0, 0, 0] = some ([0, 0, 0], 0) := by
  rw [model_pfr_eq_ref 5 [1, 1, 1] [0, 0, 0] [0, 0, 0] _ (by decide) rfl rfl rfl]
  norm_num [pfrResVec, pfrRes, inlet_ghost, List.range_succ]

/-- C10: for every `N ≥ 2` with input vectors of length `N`, every array access
performed by `model_pfr` is in bounds: the Option-modelled evaluation (where any
out-of-range read or write yields `none`) returns `some` result of length `N`;
moreover at `N = 2` the interior loop index list `np.arange(1, N-1)` is empty,
so only the two boundary rows are written. -/
theorem claim10_inbounds_total (t : ℚ) (y yp : List ℚ) (par : pfr) (res : List ℚ)
    (hN : 2 ≤ par.N) (hy : y.length = par.N) (hyp : yp.length = par.N)
    (hres : res.length = par.N) :
    (∃ R : List ℚ, model_pfr t y yp par res = some (R, 0) ∧ R.length = par.N) ∧
      (par.N = 2 → List.range' 1 (par.N - 2) = []) := by
  refine ⟨⟨pfrResVec par y yp, model_pfr_eq_ref t y yp res par hN hy hyp hres,
    pfrResVec_length par y yp⟩, ?_⟩
  intro h2
  rw [h2]
  rfl

/-- Witness for C10 at `N = 2`. -/
theorem claim10_witness :
    (∃ R : List ℚ, model_pfr 0 [1, 2] [3, 4] parW [0, 0] = some (R, 0) ∧
      R.length = parW.N) ∧
    (parW.N = 2 → List.range' 1 (parW.N - 2) = []) :=
  claim10_inbounds_total 0 [1, 2] [3, 4] parW [0, 0] (by decide) rfl rfl rfl
